import Mathlib

/-
Verification development for the Reddit scraper `reddit_mcp_scraper.py`.
The Python source is shallowly embedded below: pure string manipulation is
translated to functions on `List Char` / `String`, dynamically-typed JSON
values become the inductive `PyVal`, exceptions become `Except Unit` or an
explicit Bool flag, and the two remote tool calls plus `json.loads` are
parameters of the embedding (record `Env`).  All definitions are executable.
-/

namespace Scraper

/-! ## Python string primitives -/

/-- Characters treated as whitespace by Python `str.strip()` (ASCII model). -/
def isPySpace (c : Char) : Bool :=
  c = ' ' || c = '\t' || c = '\n' || c = '\r' || c = '\x0b' || c = '\x0c'

/-- Drop the characters satisfying `p` from both ends of a list. -/
def trimBoth (p : Char → Bool) (l : List Char) : List Char :=
  ((l.dropWhile p).reverse.dropWhile p).reverse

/-- Model of Python `str.strip()` (no arguments): remove leading and trailing
whitespace. -/
def pyStrip (s : String) : String := String.mk (trimBoth isPySpace s.data)

/-- Model of Python `str.lower()` on ASCII letters, on character lists. -/
def pyLowerL (l : List Char) : List Char :=
  l.map (fun c => if 'A' ≤ c ∧ c ≤ 'Z' then Char.ofNat (c.toNat + 32) else c)

/-- Model of Python `str.lower()` on ASCII letters. -/
def pyLower (s : String) : String := String.mk (pyLowerL s.data)

/-- Model of the Python substring test `sub in s`. -/
def strContainsL (l sub : List Char) : Bool :=
  (List.range (l.length + 1)).any (fun i => sub.isPrefixOf (l.drop i))

/-- `strContains s sub` models Python `sub in s` on strings. -/
def strContains (s sub : String) : Bool := strContainsL s.data sub.data

/-- Model of Python `text.split('/')` (single-character separator). -/
def splitSlashAux (cur : List Char) : List Char → List String
  | [] => [String.mk cur.reverse]
  | c :: rest =>
    if c = '/' then String.mk cur.reverse :: splitSlashAux [] rest
    else splitSlashAux (c :: cur) rest

/-! ## Model of `urllib.parse.urlparse(url).path`

Faithful to CPython 3.11's `urlsplit`/`urlparse` pipeline for the path
component: lstrip of C0-control/space characters, tab/CR/LF removal,
optional scheme, optional `//netloc` — including the `ValueError` raised on
mismatched-bracket netlocs and on bracketed hosts that are not valid
IPv6/IPvFuture literals (`_check_bracketed_host`) — fragment and query cut,
and the `;params` split for the `uses_params` schemes.  `Except.error`
models the escaping `ValueError`.  The model covers urls made of ASCII
characters: on a non-ASCII netloc CPython runs one further check
(`_checknetloc`'s NFKC-normalisation test), which is outside this model, so
the parser claims below hypothesise ASCII input. -/

/-- Characters allowed in a URL scheme after the first letter. -/
def schemeChar (c : Char) : Bool :=
  c.isAlpha || c.isDigit || c = '+' || c = '-' || c = '.'

/-- The schemes for which `urlparse` splits `;params` off the path
(CPython's `uses_params` list). -/
def usesParams : List String :=
  ["", "ftp", "hdl", "prospero", "http", "imap", "https", "shttp", "rtsp",
   "rtsps", "rtspu", "sip", "sips", "mms", "sftp", "tel"]

/-- ASCII hexadecimal digit (the set `ipaddress._BaseV6._HEX_DIGITS`). -/
def isHexDigit (c : Char) : Bool :=
  c.isDigit || ('a' ≤ c && c ≤ 'f') || ('A' ≤ c && c ≤ 'F')

/-- Python `s.split(sep)` for a single-character separator, on char lists. -/
def pySplitCharAux (sep : Char) (cur : List Char) : List Char → List (List Char)
  | [] => [cur.reverse]
  | c :: rest =>
    if c = sep then cur.reverse :: pySplitCharAux sep [] rest
    else pySplitCharAux sep (c :: cur) rest

/-- Python `s.split(sep)` for a single-character separator. -/
def pySplitChar (sep : Char) (l : List Char) : List (List Char) :=
  pySplitCharAux sep [] l

/-- Value of a string of decimal digits. -/
def decValue (l : List Char) : Nat :=
  l.foldl (fun a c => a * 10 + (c.toNat - 48)) 0

/-- Validity per `ipaddress._BaseV4._parse_octet` (CPython 3.11): 1-3 decimal
digits, no leading zero except `"0"` itself, value at most 255. -/
def validOctet (l : List Char) : Bool :=
  !l.isEmpty && l.all Char.isDigit && decide (l.length ≤ 3) &&
  (decide (l = ['0']) || decide (l.head? ≠ some '0')) &&
  decide (decValue l ≤ 255)

/-- Validity per `ipaddress._BaseV4._ip_int_from_string`: exactly four valid
octets separated by dots.  (The constructor's extra check for `'/'` cannot
fire here: the strings fed to it come from a netloc, which stops at `'/'`.) -/
def validIPv4 (l : List Char) : Bool :=
  let octets := pySplitChar '.' l
  decide (octets.length = 4) && octets.all validOctet

/-- Validity per `ipaddress._BaseV6._parse_hextet`: 1-4 hex digits. -/
def validHextet (l : List Char) : Bool :=
  !l.isEmpty && decide (l.length ≤ 4) && l.all isHexDigit

/-- Validity per `ipaddress._BaseV6._ip_int_from_string` (CPython 3.11), the
address part without any `%zone`: split on `':'` into at least 3 parts; a
dotted last part must be a valid IPv4 address (it stands for two hextets); at
most 9 parts; at most one empty interior part (the `'::'`), with a leading or
trailing `':'` only as part of a `'::'` at that end; with a `'::'` at most 7
other parts, without one exactly 8; every surviving part a valid hextet. -/
def validIPv6NoZone (l : List Char) : Bool :=
  if l.isEmpty then false
  else
    let parts0 := pySplitChar ':' l
    if parts0.length < 3 then false
    else
      let lastPart := parts0.getLastD []
      if lastPart.contains '.' && !validIPv4 lastPart then false
      else
        let parts :=
          if lastPart.contains '.' then parts0.dropLast ++ [['0'], ['0']]
          else parts0
        if 9 < parts.length then false
        else
          let interior := (parts.drop 1).dropLast
          let nEmpty := interior.countP (fun p => p.isEmpty)
          if 1 < nEmpty then false
          else if nEmpty = 1 then
            let skipIdx := 1 + ((interior.findIdx? (fun p => p.isEmpty)).getD 0)
            let headEmpty := (parts.headD [' ']).isEmpty
            let lastEmpty := (parts.getLastD [' ']).isEmpty
            if headEmpty && !(decide (skipIdx = 1)) then false
            else if lastEmpty && !(decide (skipIdx = parts.length - 2)) then false
            else
              let partsHi := if headEmpty then 0 else skipIdx
              let partsLo := if lastEmpty then 0 else parts.length - skipIdx - 1
              decide (partsHi + partsLo ≤ 7) &&
                (parts.take partsHi).all validHextet &&
                (parts.reverse.take partsLo).all validHextet
          else
            decide (parts.length = 8) && parts.all validHextet

/-- The IPvFuture shape `v<hex>+.<rest>+` of `_check_bracketed_host`'s regex
(the `.+` cannot meet a newline here: tab/CR/LF were removed from the url). -/
def ipvFutureOk (l : List Char) : Bool :=
  match l with
  | 'v' :: rest =>
    let hexs := rest.takeWhile isHexDigit
    !hexs.isEmpty &&
      (match rest.drop hexs.length with
       | '.' :: tail => !tail.isEmpty
       | _ => false)
  | _ => false

/-- `_check_bracketed_host` (CPython 3.11): a `v`-prefixed host must match the
IPvFuture pattern; any other host must be a valid IPv6 literal with an
optional non-empty `%zone` (an IPv4 literal in brackets raises, and indeed
fails `validIPv6NoZone`). -/
def validBracketHost (l : List Char) : Bool :=
  match l with
  | 'v' :: _ => ipvFutureOk l
  | _ =>
    let addr := l.takeWhile (fun c => c ≠ '%')
    match l.drop addr.length with
    | [] => validIPv6NoZone addr
    | _ :: zone => !zone.isEmpty && !(zone.contains '%') && validIPv6NoZone addr

/-- Fragment cut, query cut and `;params` split applied to what remains of
the url after the scheme and netloc are consumed. -/
def pathTail (scheme : String) (l2 : List Char) : List Char :=
  -- fragment is cut at the first '#', then the query at the first '?'
  let l3 := (l2.takeWhile (fun c => c ≠ '#')).takeWhile (fun c => c ≠ '?')
  -- urlparse splits ";params" off the last path segment for these schemes
  if scheme ∈ usesParams ∧ l3.contains ';' then
    if l3.contains '/' then
      let j := l3.length - 1 - ((l3.reverse.findIdx? (fun c => c = '/')).getD 0)
      match (l3.drop j).findIdx? (fun c => c = ';') with
      | some k => l3.take (j + k)
      | none => l3
    else l3.takeWhile (fun c => c ≠ ';')
  else l3

/-- Model of `urlparse(url).path` (CPython 3.11), on the character list of
the url; `Except.error` models the `ValueError` that `urlsplit` raises on a
mismatched-bracket netloc or an invalid bracketed host. -/
def urlparsePathE (url0 : List Char) : Except Unit (List Char) :=
  -- url.lstrip of C0 controls and space, then remove '\t', '\r', '\n'
  let l0 := url0.dropWhile (fun c => c.toNat ≤ 32)
  let l := l0.filter (fun c => !(c = '\t' || c = '\r' || c = '\n'))
  -- optional "scheme:" (first char alphabetic, all chars before ':' scheme
  -- chars); the scheme is lowercased
  let schemeAndRest : String × List Char :=
    match l.findIdx? (fun c => c = ':') with
    | some i =>
      if 0 < i && (match l.head? with | some c => c.isAlpha | none => false)
          && (l.take i).all schemeChar
      then (String.mk (pyLowerL (l.take i)), l.drop (i + 1)) else ("", l)
    | none => ("", l)
  let scheme := schemeAndRest.1
  let l1 := schemeAndRest.2
  -- "//netloc": the netloc extends to the next '/', '?' or '#' (kept);
  -- mismatched brackets raise, a bracketed host is validated
  match l1 with
  | '/' :: '/' :: rest =>
    let netloc := rest.takeWhile (fun c => !(c = '/' || c = '?' || c = '#'))
    let rest2 := rest.dropWhile (fun c => !(c = '/' || c = '?' || c = '#'))
    if (netloc.contains '[' && !netloc.contains ']') ||
        (netloc.contains ']' && !netloc.contains '[') then
      .error ()                              -- "Invalid IPv6 URL"
    else if netloc.contains '[' then
      -- netloc.partition('[')[2].partition(']')[0]
      let host :=
        (((netloc.dropWhile (fun c => c ≠ '[')).drop 1).takeWhile (fun c => c ≠ ']'))
      if validBracketHost host then .ok (pathTail scheme rest2) else .error ()
    else .ok (pathTail scheme rest2)
  | _ => .ok (pathTail scheme l1)

/-- `path.strip('/').split('/')` of the source, line 16, applied to a path. -/
def pathPartsOf (path : List Char) : List String :=
  splitSlashAux [] (trimBoth (fun c => c = '/') path)

/-- All characters ASCII (Python `str.isascii()`): the domain on which the
URL model is faithful. -/
def asciiStr (s : String) : Bool := s.data.all (fun c => c.toNat < 128)

/-- Lines 18-21 of the source: find the first segment equal to `"r"`; if it has
a successor, return that successor.  (`path_parts.index('r')` finds the first
occurrence only; when it is the last segment the function falls through.) -/
def afterMarker : List String → Option String
  | [] => none
  | x :: xs => if x = "r" then xs.head? else afterMarker xs

/-- `url.startswith('r/')` test together with `url[2:]`: returns the
remainder when the prefix is present. -/
def stripRSlash (l : List Char) : Option (List Char) :=
  match l with
  | c :: d :: rest => if c = 'r' ∧ d = '/' then some rest else none
  | _ => none

/-- Embedding of `extract_subreddit_name` (source lines 10-23).  The
`urlparse` call of line 15 is outside any `try`, so its `ValueError`
propagates out of the function (`Except.error`). -/
def extract_subreddit_name (url : String) : Except Unit String :=
  match stripRSlash url.data with
  | some rest => .ok (String.mk rest)         -- url.startswith('r/'): return url[2:]
  | none =>
    match urlparsePathE url.data with
    | .error e => .error e                    -- urlparse raised ValueError
    | .ok path =>
      match afterMarker (pathPartsOf path) with
      | some s => .ok s
      | none => .ok url

/-- The segment the marker search yields when the url parses (`none` both
when there is no such segment and when `urlparse` raises). -/
def parsedMarker (url : String) : Option String :=
  match urlparsePathE url.data with
  | .ok path => afterMarker (pathPartsOf path)
  | .error _ => Option.none

/-! ## Post-id extraction (source lines 59-60)

`re.findall(r'/comments/([a-zA-Z0-9]+)/', response_text)` followed by
`list(dict.fromkeys(...))[:post_limit]`. -/

/-- Alphanumeric characters, the regex class `[a-zA-Z0-9]`. -/
def idChar (c : Char) : Bool :=
  ('a' ≤ c && c ≤ 'z') || ('A' ≤ c && c ≤ 'Z') || ('0' ≤ c && c ≤ '9')

/-- Try to match `/comments/([a-zA-Z0-9]+)/` at the head of the list; on
success return the captured token and the unmatched rest (scanning resumes
after the final `/`, so matches never overlap). -/
def matchCommentsAt (l : List Char) : Option (String × List Char) :=
  let pre := "/comments/".data
  if pre.isPrefixOf l then
    let l1 := l.drop pre.length
    let tok := l1.takeWhile idChar
    match tok, l1.drop tok.length with
    | _ :: _, '/' :: rest => some (String.mk tok, rest)
    | _, _ => none
  else none

/-- Left-to-right non-overlapping scan, as `re.findall` performs it; the fuel
is the input length (every step consumes at least one character). -/
def findIdsAux : Nat → List Char → List String
  | 0, _ => []
  | _ + 1, [] => []
  | fuel + 1, c :: rest =>
    match matchCommentsAt (c :: rest) with
    | some (tok, r) => tok :: findIdsAux fuel r
    | none => findIdsAux fuel rest

/-- All tokens captured by `re.findall(r'/comments/([a-zA-Z0-9]+)/', text)`,
in order of appearance. -/
def findIds (text : String) : List String := findIdsAux text.data.length text.data

/-- Model of `list(dict.fromkeys(xs))`: keep the first occurrence of every
element, preserving order. -/
def pyFromKeysAux (acc : List String) : List String → List String
  | [] => acc
  | x :: xs => if x ∈ acc then pyFromKeysAux acc xs else pyFromKeysAux (acc ++ [x]) xs

/-- `list(dict.fromkeys(xs))` of the source, line 60. -/
def pyFromKeys (xs : List String) : List String := pyFromKeysAux [] xs

/-- Reference first-seen deduplication: keep the head, erase its later
duplicates, recurse.  Used to characterise `pyFromKeys`. -/
def specDedup : List String → List String
  | [] => []
  | x :: xs => x :: specDedup (xs.filter (fun y => y ≠ x))
termination_by l => l.length
decreasing_by
  simp only [List.length_cons]
  exact Nat.lt_succ_of_le (List.length_filter_le _ _)

/-- Model of the Python slice `xs[:n]` for an `int` bound `n`. -/
def pyTake (n : Int) (xs : List α) : List α :=
  if n < 0 then xs.take ((xs.length : Int) + n).toNat else xs.take n.toNat

/-- Source line 59-60: ids found in the listing text, deduplicated first-seen,
capped at `post_limit`. -/
def post_ids_of (response_text : String) (post_limit : Int) : List String :=
  pyTake post_limit (pyFromKeys (findIds response_text))

/-! ## Python/JSON values

The dynamically-typed values the scraper manipulates after `json.loads`.
Numbers are modelled by `Int` (fractional values play no role in any claim).
`Except Unit` models an exception escaping an operation. -/

inductive PyVal where
  | str  (s : String)
  | int  (n : Int)
  | bool (b : Bool)
  | none
  | list (xs : List PyVal)
  | dict (fs : List (String × PyVal))

mutual

/-- A computable size measure on `PyVal`, used as recursion fuel. -/
def pySize : PyVal → Nat
  | .str _ => 1
  | .int _ => 1
  | .bool _ => 1
  | .none => 1
  | .list xs => 1 + pySizeList xs
  | .dict fs => 1 + pySizeFields fs

/-- Size of a list of values. -/
def pySizeList : List PyVal → Nat
  | [] => 1
  | x :: xs => 1 + pySize x + pySizeList xs

/-- Size of a dict's field list. -/
def pySizeFields : List (String × PyVal) → Nat
  | [] => 1
  | (_, v) :: fs => 1 + pySize v + pySizeFields fs

end

/-- Python truthiness of a value. -/
def pyTruthy : PyVal → Bool
  | .str s => !s.isEmpty
  | .int n => decide (n ≠ 0)
  | .bool b => b
  | .none => false
  | .list xs => !xs.isEmpty
  | .dict fs => !fs.isEmpty

/-- Python `k in v` for a string `k`: key test on dicts, element test on
lists (string equality against string elements; a string never equals a
non-string JSON value), substring test on strings, `TypeError` otherwise. -/
def pyContains (v : PyVal) (k : String) : Except Unit Bool :=
  match v with
  | .dict fs => .ok ((fs.map Prod.fst).contains k)
  | .list xs =>
    .ok (xs.any (fun x => match x with | .str s => decide (s = k) | _ => false))
  | .str s => .ok (strContains s k)
  | _ => .error ()

/-- Python `v[k]` for a string key: dict lookup (`KeyError` if absent),
`TypeError` on any other value. -/
def pySubscript (v : PyVal) (k : String) : Except Unit PyVal :=
  match v with
  | .dict fs =>
    match List.lookup k fs with
    | some x => .ok x
    | Option.none => .error ()
  | _ => .error ()

/-- Python `v.get(k, default)`: only dicts have `.get` (`AttributeError`
otherwise). -/
def pyGet (v : PyVal) (k : String) (default : PyVal) : Except Unit PyVal :=
  match v with
  | .dict fs => .ok ((List.lookup k fs).getD default)
  | _ => .error ()

/-- Python `v.strip()`: only strings have `.strip()`. -/
def pyStripAttr : PyVal → Except Unit String
  | .str s => .ok (pyStrip s)
  | _ => .error ()

/-- Python `v.lower()`: only strings have `.lower()`. -/
def pyLowerAttr : PyVal → Except Unit String
  | .str s => .ok (pyLower s)
  | _ => .error ()

/-! ## `extract_comment_bodies` (source lines 118-132)

The recursion is not structural (it goes through `data['replies']`), so it is
implemented with an explicit fuel that the wrapper sets to `pySize data`;
every recursive call strictly decreases `pySize`, so that fuel is never
exhausted (kept structural so that concrete runs reduce in the kernel). -/

/-- Lines 122-125: `if 'body' in data: body = data['body'].strip(); if body
and body not in ['[deleted]', '[removed]', '']: bodies.append(body)`. -/
def ecbBody (fs : List (String × PyVal)) : Except Unit (List String) :=
  match List.lookup "body" fs with
  | some bv =>
    match bv with
    | .str braw =>
      let b := pyStrip braw
      if b ≠ "" ∧ b ∉ ["[deleted]", "[removed]", ""] then .ok [b] else .ok []
    | _ => .error ()                       -- `.strip()` on a non-string raises
  | Option.none => .ok []

mutual

/-- One Python-level call of `extract_comment_bodies` at given fuel. -/
def ecbF : Nat → PyVal → Except Unit (List String)
  | 0, _ => .error ()
  | fuel + 1, v =>
    match v with
    | .dict fs =>
      match ecbBody fs with
      | .error e => .error e
      | .ok part1 =>
        -- `if 'replies' in data and data['replies']:` then iterate it
        match List.lookup "replies" fs with
        | some r =>
          if pyTruthy r then
            match r with
            | .list xs =>
              match ecbListF fuel xs with
              | .error e => .error e
              | .ok part2 => .ok (part1 ++ part2)
            -- iterating a string or a dict yields strings (characters/keys);
            -- the recursive call on a string returns [] at once
            | .str _ => .ok part1
            | .dict _ => .ok part1
            | _ => .error ()               -- a truthy int/bool is not iterable
          else .ok part1
        | Option.none => .ok part1
    | .list xs => ecbListF fuel xs
    | _ => .ok []                          -- not a dict or a list: no bodies

/-- `bodies.extend(extract_comment_bodies(reply))` over a list, at given fuel. -/
def ecbListF : Nat → List PyVal → Except Unit (List String)
  | 0, _ => .error ()
  | _ + 1, [] => .ok []
  | fuel + 1, x :: xs =>
    match ecbF fuel x with
    | .error e => .error e
    | .ok a =>
      match ecbListF fuel xs with
      | .error e => .error e
      | .ok b => .ok (a ++ b)

end

/-- Embedding of `extract_comment_bodies` (source lines 118-132). -/
def extract_comment_bodies (data : PyVal) : Except Unit (List String) :=
  ecbF (pySize data) data

/-! ## Title/body extraction from a parsed content record (source lines 87-96) -/

/-- The body sentinel values of source line 95. -/
def sentinelList : List String := ["none", "n/a", "[deleted]", "[removed]", ""]

/-- Lines 88-91: `if 'title' in post_data: title = post_data['title'].strip();
if title: ...append(title)`.  Returns the appended entries, or the escaping
exception. -/
def titleStep (d : PyVal) : Except Unit (List String) :=
  match pyContains d "title" with
  | .error e => .error e
  | .ok has =>
    if has then
      match pySubscript d "title" with
      | .error e => .error e
      | .ok tv =>
        match pyStripAttr tv with
        | .error e => .error e
        | .ok t => .ok (if t ≠ "" then [t] else [])
    else .ok []

/-- Line 94: `post_data.get('selftext') or post_data.get('body') or
post_data.get('text', '')`, with Python's short-circuiting `or`. -/
def bodyValue (d : PyVal) : Except Unit PyVal :=
  match pyGet d "selftext" PyVal.none with
  | .error e => .error e
  | .ok v1 =>
    if pyTruthy v1 then .ok v1
    else
      match pyGet d "body" PyVal.none with
      | .error e => .error e
      | .ok v2 =>
        if pyTruthy v2 then .ok v2
        else pyGet d "text" (PyVal.str "")

/-- Lines 94-96: `if body_text and body_text.strip() and body_text.lower()
not in [...]: ...append(body_text.strip())`.  Note the `.lower()` is applied
to the raw, untrimmed value. -/
def bodyStep (d : PyVal) : Except Unit (List String) :=
  match bodyValue d with
  | .error e => .error e
  | .ok bt =>
    if pyTruthy bt then
      match pyStripAttr bt with
      | .error e => .error e
      | .ok st =>
        if st ≠ "" then
          match pyLowerAttr bt with
          | .error e => .error e
          | .ok lo => .ok (if lo ∉ sentinelList then [st] else [])
        else .ok []
    else .ok []

/-- Lines 87-96 as a whole: the title entries appended, then the body entries
appended, and whether an exception escaped (only `json.JSONDecodeError` is
caught locally; an `AttributeError`/`TypeError`/`KeyError` here propagates to
the per-post handler of line 158, skipping the comments fetch).  Entries
appended before the exception stay appended. -/
def contentEntries (d : PyVal) : List String × List String × Bool :=
  match titleStep d with
  | .error _ => ([], [], true)
  | .ok tp =>
    match bodyStep d with
    | .error _ => (tp, [], true)
    | .ok bp => (tp, bp, false)

/-! ## The external collaborators and the per-post loop (source lines 25-169)

A tool call either raises at the transport level (`Fetch.raise`) or returns a
response whose `content` is a list of text blocks (`Fetch.ok`; the code uses
`content[0].text if content else ...`).  `json.loads` is modelled by a
function to `Option PyVal` (`Option.none` plays `json.JSONDecodeError`).
Events record which tool calls were issued, in order. -/

inductive Fetch where
  | raise
  | ok (blocks : List String)

/-- The remote collaborators of one run. -/
structure Env where
  listHot      : String → Int → Fetch      -- get_subreddit_hot_posts(name, limit)
  contentResp  : String → Fetch            -- get_post_content(post_id)
  commentsResp : String → Fetch            -- get_post_comments(post_id)
  jsonLoads    : String → Option PyVal     -- json.loads

/-- Tool calls issued during a run. -/
inductive Event where
  | listingFetch (name : String) (limit : Int)
  | contentFetch (pid : String)
  | commentsFetch (pid : String)
deriving DecidableEq

/-- Source lines 104-151: the inner `try` around the comments fetch.  Returns
the updated aggregate and the events of this block; every failure path
(transport error, empty content, soft-error sentinel, JSON parse failure, or
an exception inside `extract_comment_bodies`) is caught at line 150 and
leaves the aggregate unchanged. -/
def processComments (env : Env) (texts : List String) (pid : String) :
    List String × List Event :=
  let texts1 :=
    match env.commentsResp pid with
    | .raise => texts
    | .ok blocks =>
      match blocks.head? with
      | Option.none => texts
      | some ctext =>
        if strContains ctext "Error processing" then texts
        else
          match env.jsonLoads ctext with
          | Option.none => texts
          | some d =>
            match extract_comment_bodies d with
            | .error _ => texts
            | .ok bodies =>
              -- line 138-140: `for body in comment_bodies: if body.strip(): append(body)`
              texts ++ bodies.filter (fun b => !(pyStrip b).isEmpty)
  (texts1, [Event.commentsFetch pid])

/-- Source lines 65-159: the body of the per-post loop for one id, starting
from aggregate `texts`.  The outer `except Exception` (line 158) swallows
every failure, so the function is total; the sentinel check (line 79-81) does
a `continue`, skipping the comments fetch. -/
def processPost (env : Env) (texts : List String) (pid : String) :
    List String × List Event :=
  match env.contentResp pid with
  | .raise => (texts, [Event.contentFetch pid])
  | .ok blocks =>
    match blocks.head? with
    | Option.none =>
      -- `if post_content_result.content:` is false: straight to the comments
      let r := processComments env texts pid
      (r.1, Event.contentFetch pid :: r.2)
    | some text =>
      if strContains text "Error processing" then (texts, [Event.contentFetch pid])
      else
        match env.jsonLoads text with
        | Option.none =>
          -- JSONDecodeError is caught at line 100; fall through to the comments
          let r := processComments env texts pid
          (r.1, Event.contentFetch pid :: r.2)
        | some d =>
          let ce := contentEntries d
          if ce.2.2 then (texts ++ ce.1 ++ ce.2.1, [Event.contentFetch pid])
          else
            let r := processComments env (texts ++ ce.1 ++ ce.2.1) pid
            (r.1, Event.contentFetch pid :: r.2)

/-- One step of the loop of line 65, threading the aggregate and the trace. -/
def batchStep (env : Env) (st : List String × List Event) (pid : String) :
    List String × List Event :=
  ((processPost env st.1 pid).1, st.2 ++ (processPost env st.1 pid).2)

/-- The loop of line 65 over the whole id batch. -/
def runBatch (env : Env) (ids : List String) : List String × List Event :=
  ids.foldl (batchStep env) ([], [])

/-- Embedding of `scrape_reddit_mcp` (lines 25-169): listing fetch with limit
`min(post_limit, 100)`, id extraction and capping, then the batch loop.  The
result is the event trace plus the final aggregate (`Option.none` when the
run dies: either `extract_subreddit_name` raises at line 28 — then no tool
call at all is issued — or the unguarded listing call raises). -/
def scrape_reddit_mcp (env : Env) (subreddit_url : String)
    (post_limit : Int := 1000) : List Event × Option (List String) :=
  match extract_subreddit_name subreddit_url with
  | .error _ => ([], Option.none)   -- urlparse raised at line 28; the run dies
  | .ok name =>
    match env.listHot name (min post_limit 100) with
    | .raise => ([Event.listingFetch name (min post_limit 100)], Option.none)
    | .ok blocks =>
      let response_text := (blocks.head?).getD ""
      let post_ids := post_ids_of response_text post_limit
      let r := runBatch env post_ids
      (Event.listingFetch name (min post_limit 100) :: r.2, some r.1)

/-- Lines 177-178 of `main`: `post_limit = int(sys.argv[2]) if len(sys.argv)
> 2 else 100` (with `int` parsing abstracted as a parameter). -/
def mainPostLimit (toInt : String → Int) (argv : List String) : Int :=
  if 2 < argv.length then toInt (argv.getD 2 "") else 100

/-! ## Shapes on which the comment flattener cannot raise

`wfF` mirrors the recursion of `ecbF`: a dict node must carry a string
`'body'` (when the key is present) and a `'replies'` that, when truthy, is
not a number or boolean; any other leaf is unconstrained. -/

mutual

/-- Well-shaped comment node, at given fuel. -/
def wfF : Nat → PyVal → Bool
  | 0, _ => false
  | fuel + 1, v =>
    match v with
    | .dict fs =>
      (match List.lookup "body" fs with
       | some (.str _) => true
       | some _ => false
       | Option.none => true) &&
      (match List.lookup "replies" fs with
       | some r =>
         if pyTruthy r then
           match r with
           | .list xs => wfListF fuel xs
           | .str _ => true
           | .dict _ => true
           | _ => false
         else true
       | Option.none => true)
    | .list xs => wfListF fuel xs
    | _ => true

/-- Well-shaped list of comment nodes, at given fuel. -/
def wfListF : Nat → List PyVal → Bool
  | 0, _ => false
  | _ + 1, [] => true
  | fuel + 1, x :: xs => wfF fuel x && wfListF fuel xs

end

/-- Well-shaped comment tree: the flattener returns without raising on it. -/
def wfNode (v : PyVal) : Bool := wfF (pySize v) v

/-! ## Projections of the per-post behaviour

Spec-side recomputations of the three groups of entries a post contributes,
and of whether the comments fetch is reached, used to state the ordering and
error-containment claims. -/

/-- The parsed content record the run actually processes for `pid`, when the
content call succeeds, its response is present and is not the soft-error
sentinel, and `json.loads` succeeds. -/
def parsedContent (env : Env) (pid : String) : Option PyVal :=
  match env.contentResp pid with
  | .ok blocks =>
    match blocks.head? with
    | some text =>
      if strContains text "Error processing" then Option.none
      else env.jsonLoads text
    | Option.none => Option.none
  | .raise => Option.none

/-- The title entries a post contributes. -/
def titlePartOf (env : Env) (pid : String) : List String :=
  match parsedContent env pid with
  | some d => (contentEntries d).1
  | Option.none => []

/-- The body entries a post contributes. -/
def bodyPartOf (env : Env) (pid : String) : List String :=
  match parsedContent env pid with
  | some d => (contentEntries d).2.1
  | Option.none => []

/-- Whether control reaches the comments fetch for `pid`: the content call
must not raise, its response (when present) must not contain the soft-error
sentinel, and extracting title/body from a successfully parsed record must
not raise (a JSON parse failure is fine). -/
def commentsAttempted (env : Env) (pid : String) : Bool :=
  match env.contentResp pid with
  | .raise => false
  | .ok blocks =>
    match blocks.head? with
    | Option.none => true
    | some text =>
      if strContains text "Error processing" then false
      else
        match env.jsonLoads text with
        | Option.none => true
        | some d => !(contentEntries d).2.2

/-- The comment entries appended when the comments fetch runs for `pid`. -/
def commentBodiesOf (env : Env) (pid : String) : List String :=
  match env.commentsResp pid with
  | .raise => []
  | .ok blocks =>
    match blocks.head? with
    | Option.none => []
    | some ctext =>
      if strContains ctext "Error processing" then []
      else
        match env.jsonLoads ctext with
        | Option.none => []
        | some d =>
          match extract_comment_bodies d with
          | .error _ => []
          | .ok bodies => bodies.filter (fun b => !(pyStrip b).isEmpty)

/-- The comment entries a post contributes (empty when the comments fetch is
never reached). -/
def commentPartOf (env : Env) (pid : String) : List String :=
  if commentsAttempted env pid then commentBodiesOf env pid else []

/-- Recognises a content-fetch event. -/
def isContentFetchEv : Event → Bool
  | .contentFetch _ => true
  | _ => false

/-! ## Lemmas about trimming -/

theorem dropWhile_dropWhile (p : Char → Bool) (l : List Char) :
    (l.dropWhile p).dropWhile p = l.dropWhile p := by
  induction l with
  | nil => rfl
  | cons a t ih =>
    by_cases h : p a = true
    · simp [List.dropWhile_cons, h, ih]
    · simp [List.dropWhile_cons, h]

theorem dropWhile_head_false {p : Char → Bool} {l t : List Char} {a : Char}
    (h : l.dropWhile p = a :: t) : p a = false := by
  have := List.head?_dropWhile_not p l
  rw [h] at this
  exact this

/-- The trimmed list is a prefix of the front-trimmed list. -/
theorem trimBoth_prefix (p : Char → Bool) (l : List Char) :
    trimBoth p l <+: l.dropWhile p := by
  unfold trimBoth
  have h := List.dropWhile_suffix (l := (l.dropWhile p).reverse) p
  rw [← List.reverse_prefix] at h
  simpa using h

theorem trimBoth_idem (p : Char → Bool) (l : List Char) :
    trimBoth p (trimBoth p l) = trimBoth p l := by
  have hpre : trimBoth p l <+: l.dropWhile p := trimBoth_prefix p l
  have hfront : (trimBoth p l).dropWhile p = trimBoth p l := by
    match hT : trimBoth p l with
    | [] => rfl
    | a :: t =>
      have hy : ∃ w, l.dropWhile p = a :: (t ++ w) := by
        rcases hpre with ⟨w, hw⟩
        rw [hT] at hw
        exact ⟨w, by simpa using hw.symm⟩
      rcases hy with ⟨w, hw⟩
      have : p a = false := dropWhile_head_false hw
      simp [List.dropWhile_cons, this]
  show ((((trimBoth p l).dropWhile p).reverse).dropWhile p).reverse = trimBoth p l
  rw [hfront]
  show (((((l.dropWhile p).reverse).dropWhile p).reverse).reverse.dropWhile p).reverse
      = trimBoth p l
  rw [List.reverse_reverse, dropWhile_dropWhile]
  rfl

theorem pyStrip_idem (s : String) : pyStrip (pyStrip s) = pyStrip s := by
  show String.mk (trimBoth isPySpace (String.mk (trimBoth isPySpace s.data)).data)
      = String.mk (trimBoth isPySpace s.data)
  rw [show (String.mk (trimBoth isPySpace s.data)).data = trimBoth isPySpace s.data from rfl,
    trimBoth_idem]

/-! ## Lemmas about the forum-reference parser -/

theorem stripRSlash_eq_some {l rest : List Char} (h : stripRSlash l = some rest) :
    l = 'r' :: '/' :: rest := by
  match l with
  | [] => simp [stripRSlash] at h
  | [c] => simp [stripRSlash] at h
  | c :: d :: t =>
    simp only [stripRSlash] at h
    by_cases hcd : c = 'r' ∧ d = '/'
    · rw [if_pos hcd] at h
      obtain ⟨rfl, rfl⟩ := hcd
      obtain rfl : t = rest := by simpa using h
      rfl
    · rw [if_neg hcd] at h
      exact absurd h (by simp)

theorem stripRSlash_eq_none {l : List Char} (h : ∀ rest, l ≠ 'r' :: '/' :: rest) :
    stripRSlash l = none := by
  match l with
  | [] => rfl
  | [c] => rfl
  | c :: d :: t =>
    simp only [stripRSlash]
    by_cases hcd : c = 'r' ∧ d = '/'
    · obtain ⟨rfl, rfl⟩ := hcd
      exact absurd rfl (h t)
    · rw [if_neg hcd]

theorem afterMarker_some_decomp {xs : List String} {s : String}
    (h : afterMarker xs = some s) : ∃ pre post, xs = pre ++ "r" :: s :: post := by
  induction xs with
  | nil => simp [afterMarker] at h
  | cons x rest ih =>
    unfold afterMarker at h
    by_cases hx : x = "r"
    · rw [if_pos hx] at h
      cases rest with
      | nil => simp at h
      | cons y rest2 =>
        obtain rfl : y = s := by simpa using h
        exact ⟨[], rest2, by rw [hx]; rfl⟩
    · rw [if_neg hx] at h
      obtain ⟨pre, post, hp⟩ := ih h
      exact ⟨x :: pre, post, by rw [hp]; rfl⟩

theorem decomp_afterMarker {xs pre post : List String} {s : String}
    (h : xs = pre ++ "r" :: s :: post) :
    ∃ pre2 s2 post2, xs = pre2 ++ "r" :: s2 :: post2 ∧ "r" ∉ pre2 ∧
      afterMarker xs = some s2 := by
  induction xs generalizing pre with
  | nil => exact absurd h (by simp)
  | cons x rest ih =>
    by_cases hx : x = "r"
    · have hne : rest ≠ [] := by
        cases pre with
        | nil =>
          simp only [List.nil_append, List.cons.injEq] at h
          rw [h.2]
          simp
        | cons p pre2 =>
          simp only [List.cons_append, List.cons.injEq] at h
          rw [h.2]
          simp
      cases rest with
      | nil => exact absurd rfl hne
      | cons y rest2 =>
        refine ⟨[], y, rest2, ?_, by simp, ?_⟩
        · rw [hx]; rfl
        · unfold afterMarker
          rw [if_pos hx]
          rfl
    · cases pre with
      | nil =>
        simp only [List.nil_append, List.cons.injEq] at h
        exact absurd h.1 hx
      | cons p pre2 =>
        simp only [List.cons_append, List.cons.injEq] at h
        obtain ⟨pre3, s3, post3, hd, hnin, ham⟩ := ih h.2
        refine ⟨x :: pre3, s3, post3, ?_, ?_, ?_⟩
        · rw [hd]; rfl
        · intro hmem
          rcases List.mem_cons.mp hmem with h1 | h1
          · exact hx h1.symm
          · exact hnin h1
        · unfold afterMarker
          rw [if_neg hx]
          exact ham

/-- Claim C7 (counterexample): the forum-reference parser does not always
return a non-empty string — on the input `"r/"` (the bare shorthand prefix)
it returns the empty string. -/
theorem claim_C7_counterexample : extract_subreddit_name "r/" = .ok "" := rfl

/-- Claim C7 (amended): whenever the parser returns at all (the `urlparse`
of a malformed bracketed host raises instead), the canonical forum name is
non-empty provided the input is non-empty, is not the bare shorthand prefix
`"r/"`, and the parsed URL path does not place an empty segment immediately
after the first marker segment `"r"`. -/
theorem claim_C7_amended (url : String) (h0 : url ≠ "") (h1 : url ≠ "r/")
    (h2 : parsedMarker url ≠ some "") :
    ∀ s, extract_subreddit_name url = .ok s → s ≠ "" := by
  intro s hs
  unfold extract_subreddit_name at hs
  cases hS : stripRSlash url.data with
  | some rest =>
    simp only [hS] at hs
    have hdata := stripRSlash_eq_some hS
    cases rest with
    | nil => exact absurd (String.ext (by rw [hdata])) h1
    | cons c t =>
      obtain rfl : String.mk (c :: t) = s := by simpa using hs
      rw [Ne, String.ext_iff]
      simp
  | none =>
    simp only [hS] at hs
    cases hP : urlparsePathE url.data with
    | error e => simp [hP] at hs
    | ok path =>
      simp only [hP] at hs
      cases hA : afterMarker (pathPartsOf path) with
      | some m =>
        simp only [hA] at hs
        obtain rfl : m = s := by simpa using hs
        intro hemp
        exact h2 (by simp [parsedMarker, hP, hA, hemp])
      | none =>
        simp only [hA] at hs
        obtain rfl : url = s := by simpa using hs
        exact h0

/-- Claim C7 (witness for the amended theorem): a real URL returns the
non-empty name `"python"`. -/
theorem claim_C7_witness :
    extract_subreddit_name "https://www.reddit.com/r/python/" = .ok "python" ∧
    ("python" : String) ≠ "" :=
  ⟨rfl,
   claim_C7_amended "https://www.reddit.com/r/python/" (by decide) (by decide)
     (by decide) "python" rfl⟩

/-- Claim C8 (counterexample): the parser is NOT a total function — on the
input `"http://[abc/r/x/"` the `urlparse` call of line 15 raises
`ValueError` (mismatched-bracket netloc `[abc`), and `extract_subreddit_name`
propagates the exception instead of returning a string. -/
theorem claim_C8_counterexample :
    extract_subreddit_name "http://[abc/r/x/" = .error () := rfl

/-- Claim C8 (amended): for ASCII inputs, whenever the parser returns (the
`urlparse` of a malformed bracketed host raises instead): a leading `"r/"`
is stripped and the remainder returned verbatim; otherwise, when the parsed
URL path contains a marker segment `"r"` followed by another segment, the
segment after the first such marker is returned; otherwise the input string
is returned unchanged. -/
theorem claim_C8_amended (url : String) (_hascii : asciiStr url = true) :
    (∀ rest, url.data = 'r' :: '/' :: rest →
      extract_subreddit_name url = .ok (String.mk rest)) ∧
    ((∀ rest, url.data ≠ 'r' :: '/' :: rest) →
      ∀ path, urlparsePathE url.data = .ok path →
        ((∃ pre s post, pathPartsOf path = pre ++ "r" :: s :: post) →
          ∃ pre s post, pathPartsOf path = pre ++ "r" :: s :: post ∧ "r" ∉ pre ∧
            extract_subreddit_name url = .ok s) ∧
        ((¬ ∃ pre s post, pathPartsOf path = pre ++ "r" :: s :: post) →
          extract_subreddit_name url = .ok url)) := by
  constructor
  · intro rest h
    unfold extract_subreddit_name
    rw [show stripRSlash url.data = some rest by rw [h]; simp [stripRSlash]]
  · intro hns path hP
    have hnone : stripRSlash url.data = none := stripRSlash_eq_none hns
    constructor
    · rintro ⟨pre, s, post, hdec⟩
      obtain ⟨pre2, s2, post2, hd, hnin, ham⟩ := decomp_afterMarker hdec
      refine ⟨pre2, s2, post2, hd, hnin, ?_⟩
      unfold extract_subreddit_name
      simp only [hnone, hP, ham]
    · intro hno
      unfold extract_subreddit_name
      simp only [hnone, hP]
      cases hA : afterMarker (pathPartsOf path) with
      | some s =>
        exfalso
        obtain ⟨pre, post, hp⟩ := afterMarker_some_decomp hA
        exact hno ⟨pre, s, post, hp⟩
      | none => simp [hA]

/-- Claim C8 (witness): the marker clause of the amended theorem run on a
real URL, whose parsed path is `"/r/python/"`. -/
theorem claim_C8_witness :
    ∃ pre s post,
      pathPartsOf "/r/python/".data = pre ++ "r" :: s :: post ∧ "r" ∉ pre ∧
      extract_subreddit_name "https://www.reddit.com/r/python/" = .ok s :=
  (((claim_C8_amended "https://www.reddit.com/r/python/" (by decide)).2
      (by
        intro rest h
        have hh := congrArg List.head? h
        simp at hh))
    "/r/python/".data rfl).1
    ⟨[], "python", [], by decide⟩

/-! ## Lemmas about deduplication and the id extractor -/

theorem specDedup_nil : specDedup [] = [] := by rw [specDedup]

theorem specDedup_cons (x : String) (xs : List String) :
    specDedup (x :: xs) = x :: specDedup (xs.filter (fun y => y ≠ x)) := by
  rw [specDedup]

theorem pyFromKeysAux_spec (xs : List String) : ∀ acc : List String,
    pyFromKeysAux acc xs = acc ++ specDedup (xs.filter (fun y => y ∉ acc)) := by
  induction xs with
  | nil => intro acc; simp [pyFromKeysAux, specDedup_nil]
  | cons x t ih =>
    intro acc
    by_cases hx : x ∈ acc
    · rw [show pyFromKeysAux acc (x :: t) = pyFromKeysAux acc t from by
        simp [pyFromKeysAux, hx]]
      rw [ih acc]
      congr 2
      simp [List.filter_cons, hx]
    · rw [show pyFromKeysAux acc (x :: t) = pyFromKeysAux (acc ++ [x]) t from by
        simp [pyFromKeysAux, hx]]
      rw [ih (acc ++ [x])]
      have hfs : t.filter (fun y => decide (y ∉ acc ++ [x]))
          = (t.filter (fun y => decide (y ∉ acc))).filter (fun y => decide (y ≠ x)) := by
        rw [List.filter_filter]
        have hfun : ∀ y, (decide (y ∉ acc ++ [x]))
            = (decide (y ≠ x) && decide (y ∉ acc)) := by
          intro y
          by_cases h1 : y = x <;> by_cases h2 : y ∈ acc <;>
            simp [h1, h2, List.mem_append]
        exact List.filter_congr (fun y _ => hfun y)
      rw [show (x :: t).filter (fun y => decide (y ∉ acc))
          = x :: t.filter (fun y => decide (y ∉ acc)) from by
        simp [List.filter_cons, hx]]
      rw [specDedup_cons, hfs, List.append_assoc]
      rfl

theorem pyFromKeys_eq_specDedup (xs : List String) :
    pyFromKeys xs = specDedup xs := by
  unfold pyFromKeys
  rw [pyFromKeysAux_spec xs []]
  simp

theorem specDedup_props_aux :
    ∀ (n : Nat) (l : List String), l.length ≤ n →
      List.Sublist (specDedup l) l ∧ (specDedup l).Nodup := by
  intro n
  induction n with
  | zero =>
    intro l hl
    have : l = [] := List.length_eq_zero.mp (Nat.le_zero.mp hl)
    subst this
    simp [specDedup_nil]
  | succ n ih =>
    intro l hl
    cases l with
    | nil => simp [specDedup_nil]
    | cons x xs =>
      rw [specDedup_cons]
      have hlen : (xs.filter (fun y => y ≠ x)).length ≤ n := by
        have h1 := List.length_filter_le (fun y => decide (y ≠ x)) xs
        have h2 : xs.length ≤ n := by simpa using hl
        omega
      obtain ⟨hsub, hnd⟩ := ih _ hlen
      refine ⟨List.Sublist.cons₂ x (hsub.trans (List.filter_sublist xs)), ?_⟩
      refine List.nodup_cons.mpr ⟨?_, hnd⟩
      intro hmem
      have := List.mem_filter.mp (hsub.mem hmem)
      simp at this

theorem specDedup_sublist (l : List String) : List.Sublist (specDedup l) l :=
  (specDedup_props_aux l.length l le_rfl).1

theorem specDedup_nodup (l : List String) : (specDedup l).Nodup :=
  (specDedup_props_aux l.length l le_rfl).2

/-- Claim C5: the id extractor deduplicates while preserving first-seen order
(it agrees with the reference first-occurrence deduplication `specDedup`),
returns an order-preserving selection of the matched tokens, respects the
cap, and on a listing containing `/comments/abc123/` twice and
`/comments/xyz789/` once with cap 10 yields exactly `[abc123, xyz789]`. -/
theorem claim_C5 (text : String) (cap : Int) (h : 0 ≤ cap) :
    (post_ids_of text cap).Nodup ∧
    (post_ids_of text cap).length ≤ cap.toNat ∧
    List.Sublist (post_ids_of text cap) (findIds text) ∧
    pyFromKeys (findIds text) = specDedup (findIds text) ∧
    post_ids_of "ad /comments/abc123/ x /comments/xyz789/ y /comments/abc123/ z" 10
      = ["abc123", "xyz789"] := by
  have htake : post_ids_of text cap = (pyFromKeys (findIds text)).take cap.toNat := by
    unfold post_ids_of pyTake
    rw [if_neg (by omega)]
  have heq := pyFromKeys_eq_specDedup (findIds text)
  refine ⟨?_, ?_, ?_, heq, by decide⟩
  · rw [htake, heq]
    exact (specDedup_nodup (findIds text)).sublist (List.take_sublist _ _)
  · rw [htake]
    simp only [List.length_take]
    exact min_le_left _ _
  · rw [htake]
    refine ((List.take_sublist _ _).trans ?_)
    rw [heq]
    exact specDedup_sublist (findIds text)

/-- Claim C5 (witness): the extractor run on the concrete listing of the
claim, with cap 10. -/
theorem claim_C5_witness :
    (post_ids_of "ad /comments/abc123/ x /comments/xyz789/ y /comments/abc123/ z" 10).Nodup ∧
    (post_ids_of "ad /comments/abc123/ x /comments/xyz789/ y /comments/abc123/ z" 10).length
      ≤ (10 : Int).toNat :=
  ⟨(claim_C5 "ad /comments/abc123/ x /comments/xyz789/ y /comments/abc123/ z" 10 (by decide)).1,
   (claim_C5 "ad /comments/abc123/ x /comments/xyz789/ y /comments/abc123/ z" 10 (by decide)).2.1⟩

/-! ## Lemmas about the title/body filter -/

theorem titleStep_string_record (t b : String) :
    titleStep (PyVal.dict [("title", PyVal.str t), ("selftext", PyVal.str b)])
      = .ok (if pyStrip t ≠ "" then [pyStrip t] else []) := rfl

theorem bodyStep_string_record (t b : String) :
    bodyStep (PyVal.dict [("title", PyVal.str t), ("selftext", PyVal.str b)])
      = .ok (if b ≠ "" ∧ pyStrip b ≠ "" ∧ pyLower b ∉ sentinelList
             then [pyStrip b] else []) := by
  by_cases hb : b = ""
  · subst hb
    rfl
  · have hbe : b.isEmpty = false := by
      rw [← Bool.not_eq_true, String.isEmpty_iff]
      exact hb
    have hbv : bodyValue (PyVal.dict [("title", PyVal.str t), ("selftext", PyVal.str b)])
        = .ok (PyVal.str b) := by
      simp [bodyValue, pyGet, List.lookup, pyTruthy, hbe]
    rw [bodyStep, hbv]
    simp only [pyTruthy, hbe, Bool.not_false, if_true, pyStripAttr, pyLowerAttr]
    by_cases hst : pyStrip b = ""
    · simp [hst, hb]
    · by_cases hlo : pyLower b ∈ sentinelList
      · simp [hst, hb, hlo]
      · simp [hst, hb, hlo]

/-- Claim C2 (counterexample): the code checks `body_text.lower()` on the
raw, untrimmed body, so a sentinel surrounded by whitespace is NOT
suppressed: on the record with title `"Hi"` and selftext `" none "` — whose
trimmed lowercased body IS a sentinel — the body entry `"none"` is appended
alongside the title. -/
theorem claim_C2_counterexample :
    pyLower (pyStrip " none ") ∈ sentinelList ∧
    contentEntries
        (PyVal.dict [("title", PyVal.str "Hi"), ("selftext", PyVal.str " none ")])
      = (["Hi"], ["none"], false) := by decide

/-- Claim C2 (amended): for a record with string fields `title` and
`selftext`, the trimmed body is appended iff the raw body is non-empty, its
trimmed form is non-empty, and its lowercased *untrimmed* form is not one of
the sentinels; on the record with title `"Hi"` and selftext `"none"` exactly
the single entry `"Hi"` is appended. -/
theorem claim_C2_amended (t b : String) :
    contentEntries (PyVal.dict [("title", PyVal.str t), ("selftext", PyVal.str b)])
      = ((if pyStrip t ≠ "" then [pyStrip t] else []),
         (if b ≠ "" ∧ pyStrip b ≠ "" ∧ pyLower b ∉ sentinelList
          then [pyStrip b] else []),
         false) ∧
    contentEntries (PyVal.dict [("title", PyVal.str "Hi"), ("selftext", PyVal.str "none")])
      = (["Hi"], [], false) := by
  refine ⟨?_, by decide⟩
  unfold contentEntries
  rw [titleStep_string_record, bodyStep_string_record]

/-! ## Structure of the per-post run -/

theorem processComments_eq (env : Env) (pid : String) (ts : List String) :
    processComments env ts pid
      = (ts ++ commentBodiesOf env pid, [Event.commentsFetch pid]) := by
  unfold processComments commentBodiesOf
  cases hr : env.commentsResp pid with
  | raise => simp
  | ok blocks =>
    cases hb : blocks.head? with
    | none => simp [hb]
    | some ctext =>
      by_cases hs : strContains ctext "Error processing" = true
      · simp [hb, hs]
      · cases hj : env.jsonLoads ctext with
        | none => simp [hb, hs, hj]
        | some d =>
          cases he : extract_comment_bodies d with
          | error e => simp [hb, hs, hj, he]
          | ok bodies => simp [hb, hs, hj, he]

/-- Everything a single post does, in closed form: the three entry groups are
appended in the order title, body, comments, and the trace is the content
fetch followed by the comments fetch when (and only when) it is reached. -/
theorem processPost_eq (env : Env) (texts : List String) (pid : String) :
    processPost env texts pid
      = (texts ++ titlePartOf env pid ++ bodyPartOf env pid ++ commentPartOf env pid,
         Event.contentFetch pid ::
           (if commentsAttempted env pid then [Event.commentsFetch pid] else [])) := by
  unfold processPost titlePartOf bodyPartOf commentPartOf commentsAttempted parsedContent
  cases hr : env.contentResp pid with
  | raise => simp
  | ok blocks =>
    cases hb : blocks.head? with
    | none => simp [hb, processComments_eq, List.append_assoc]
    | some text =>
      by_cases hs : strContains text "Error processing" = true
      · simp [hb, hs]
      · cases hj : env.jsonLoads text with
        | none => simp [hb, hs, hj, processComments_eq, List.append_assoc]
        | some d =>
          by_cases hc : (contentEntries d).2.2 = true
          · simp [hb, hs, hj, hc, List.append_assoc]
          · simp [hb, hs, hj, hc, processComments_eq, List.append_assoc]

/-- The batch run is the concatenation, in id order, of what each id does on
its own. -/
theorem runBatch_flat (env : Env) (ids : List String) :
    runBatch env ids
      = (ids.flatMap (fun pid => (processPost env [] pid).1),
         ids.flatMap (fun pid => (processPost env [] pid).2)) := by
  have key : ∀ (ids2 : List String) (st : List String × List Event),
      ids2.foldl (batchStep env) st
        = (st.1 ++ ids2.flatMap (fun pid => (processPost env [] pid).1),
           st.2 ++ ids2.flatMap (fun pid => (processPost env [] pid).2)) := by
    intro ids2
    induction ids2 with
    | nil => intro st; simp
    | cons pid rest ih =>
      intro st
      rw [List.foldl_cons, ih]
      simp [batchStep, processPost_eq, List.append_assoc]
  rw [runBatch, key]
  simp

/-- Claim C6: the aggregate of a batch run is the per-post contributions
concatenated in batch order, and each post's contribution is its title
entries, then its body entries, then its flattened comment bodies. -/
theorem claim_C6 (env : Env) (ids : List String) :
    (runBatch env ids).1 = ids.flatMap (fun pid => (processPost env [] pid).1) ∧
    ∀ pid, (processPost env [] pid).1
      = titlePartOf env pid ++ bodyPartOf env pid ++ commentPartOf env pid := by
  refine ⟨by rw [runBatch_flat], ?_⟩
  intro pid
  rw [processPost_eq]
  simp

/-- The environment of the C1 counterexample: the content fetch returns the
soft-error sentinel, while the comments fetch would succeed. -/
def envSentinel : Env :=
  { listHot := fun _ _ => Fetch.raise
    contentResp := fun _ => Fetch.ok ["Error processing the post"]
    commentsResp := fun _ => Fetch.ok ["x"]
    jsonLoads := fun _ => Option.none }

/-- Claim C1 (counterexample): a content response equal to the soft-error
sentinel DOES prevent the comments fetch — line 81 `continue` skips the rest
of the loop body, so no `get_post_comments` call is issued for that id. -/
theorem claim_C1_counterexample :
    strContains "Error processing the post" "Error processing" = true ∧
    Event.commentsFetch "abc" ∉ (processPost envSentinel [] "abc").2 := by decide

/-- Claim C1 (amended): the comments fetch for an id is performed iff the
content call did not raise, the content response (when present) does not
contain the soft-error sentinel, and title/body extraction from a parsed
record raised no exception; in particular a JSON parse failure of the content
does not prevent the comments fetch, but a transport failure or a sentinel
response skips it. -/
theorem claim_C1_amended (env : Env) (pid : String) :
    Event.commentsFetch pid ∈ (processPost env [] pid).2
      ↔ commentsAttempted env pid = true := by
  rw [processPost_eq]
  by_cases h : commentsAttempted env pid = true
  · simp [h]
  · simp [h]

/-- Claim C4: every id in the batch is attempted — the content fetch for each
id appears in the trace, whatever failures other ids (or this one) hit. -/
theorem claim_C4 (env : Env) (ids : List String) (pid : String) (h : pid ∈ ids) :
    Event.contentFetch pid ∈ (runBatch env ids).2 := by
  rw [runBatch_flat]
  refine List.mem_flatMap.mpr ⟨pid, h, ?_⟩
  rw [processPost_eq]
  simp

/-- The environment of the C4 witness: the content fetch raises on the first
id. -/
def envFirstRaises : Env :=
  { listHot := fun _ _ => Fetch.raise
    contentResp := fun p => if p = "a" then Fetch.raise else Fetch.ok []
    commentsResp := fun _ => Fetch.raise
    jsonLoads := fun _ => Option.none }

/-- Claim C4 (witness): the second id is still attempted although the first
one's content fetch raised. -/
theorem claim_C4_witness :
    Event.contentFetch "b" ∈ (runBatch envFirstRaises ["a", "b"]).2 :=
  claim_C4 envFirstRaises ["a", "b"] "b" (by decide)

/-! ## Every appended entry is trimmed and non-empty -/

theorem titleStep_ok_mem {d : PyVal} {tp : List String} (h : titleStep d = .ok tp) :
    ∀ s ∈ tp, pyStrip s = s ∧ s ≠ "" := by
  unfold titleStep at h
  cases hc : pyContains d "title" with
  | error e => simp only [hc] at h; exact absurd h (by simp)
  | ok has =>
    simp only [hc] at h
    by_cases hhas : has = true
    · rw [if_pos hhas] at h
      cases hsub : pySubscript d "title" with
      | error e => simp only [hsub] at h; exact absurd h (by simp)
      | ok tv =>
        simp only [hsub] at h
        cases tv with
        | str raw =>
          simp only [pyStripAttr] at h
          obtain rfl : (if pyStrip raw ≠ "" then [pyStrip raw] else []) = tp := by
            simpa using h
          by_cases hne : pyStrip raw ≠ ""
          · rw [if_pos hne]
            intro s hs
            obtain rfl : s = pyStrip raw := by simpa using hs
            exact ⟨pyStrip_idem raw, hne⟩
          · rw [if_neg hne]
            intro s hs
            simp at hs
        | int n => exact absurd h (by simp [pyStripAttr])
        | bool b => exact absurd h (by simp [pyStripAttr])
        | none => exact absurd h (by simp [pyStripAttr])
        | list xs => exact absurd h (by simp [pyStripAttr])
        | dict fs => exact absurd h (by simp [pyStripAttr])
    · rw [if_neg hhas] at h
      obtain rfl : ([] : List String) = tp := by simpa using h
      intro s hs
      simp at hs

theorem bodyStep_ok_mem {d : PyVal} {bp : List String} (h : bodyStep d = .ok bp) :
    ∀ s ∈ bp, pyStrip s = s ∧ s ≠ "" := by
  unfold bodyStep at h
  cases hbv : bodyValue d with
  | error e => simp only [hbv] at h; exact absurd h (by simp)
  | ok bt =>
    simp only [hbv] at h
    by_cases ht : pyTruthy bt = true
    · rw [if_pos ht] at h
      cases bt with
      | str raw =>
        simp only [pyStripAttr, pyLowerAttr] at h
        by_cases hne : pyStrip raw ≠ ""
        · rw [if_pos hne] at h
          obtain rfl : (if pyLower raw ∉ sentinelList then [pyStrip raw] else []) = bp := by
            simpa using h
          by_cases hlo : pyLower raw ∉ sentinelList
          · rw [if_pos hlo]
            intro s hs
            obtain rfl : s = pyStrip raw := by simpa using hs
            exact ⟨pyStrip_idem raw, hne⟩
          · rw [if_neg hlo]
            intro s hs
            simp at hs
        · rw [if_neg hne] at h
          obtain rfl : ([] : List String) = bp := by simpa using h
          intro s hs
          simp at hs
      | int n => exact absurd h (by simp [pyStripAttr])
      | bool b => exact absurd h (by simp [pyStripAttr])
      | none => exact absurd h (by simp [pyStripAttr])
      | list xs => exact absurd h (by simp [pyStripAttr])
      | dict fs => exact absurd h (by simp [pyStripAttr])
    · rw [if_neg ht] at h
      obtain rfl : ([] : List String) = bp := by simpa using h
      intro s hs
      simp at hs

theorem ecbBody_ok_mem {fs : List (String × PyVal)} {l : List String}
    (h : ecbBody fs = .ok l) : ∀ s ∈ l, pyStrip s = s ∧ s ≠ "" := by
  unfold ecbBody at h
  cases hb : List.lookup "body" fs with
  | none =>
    simp only [hb] at h
    obtain rfl : ([] : List String) = l := by simpa using h
    intro s hs
    simp at hs
  | some bv =>
    simp only [hb] at h
    cases bv with
    | str raw =>
      simp only [] at h
      by_cases hg : pyStrip raw ≠ "" ∧ pyStrip raw ∉ ["[deleted]", "[removed]", ""]
      · rw [if_pos hg] at h
        obtain rfl : [pyStrip raw] = l := by simpa using h
        intro s hs
        obtain rfl : s = pyStrip raw := by simpa using hs
        exact ⟨pyStrip_idem raw, hg.1⟩
      · rw [if_neg hg] at h
        obtain rfl : ([] : List String) = l := by simpa using h
        intro s hs
        simp at hs
    | int n => exact absurd h (by simp)
    | bool b => exact absurd h (by simp)
    | none => exact absurd h (by simp)
    | list xs => exact absurd h (by simp)
    | dict gs => exact absurd h (by simp)

theorem ecb_mem_aux : ∀ fuel : Nat,
    (∀ v l, ecbF fuel v = .ok l → ∀ s ∈ l, pyStrip s = s ∧ s ≠ "") ∧
    (∀ xs l, ecbListF fuel xs = .ok l → ∀ s ∈ l, pyStrip s = s ∧ s ≠ "") := by
  intro fuel
  induction fuel with
  | zero =>
    constructor
    · intro v l h; exact absurd h (by simp [ecbF])
    · intro xs l h; exact absurd h (by simp [ecbListF])
  | succ n ih =>
    obtain ⟨ihF, ihL⟩ := ih
    constructor
    · intro v l h
      cases v with
      | dict fs =>
        unfold ecbF at h
        cases hbp : ecbBody fs with
        | error e => simp [hbp] at h
        | ok part1 =>
          simp only [hbp] at h
          cases hrep : List.lookup "replies" fs with
          | none =>
            simp only [hrep] at h
            obtain rfl : part1 = l := by simpa using h
            exact ecbBody_ok_mem hbp
          | some r =>
            simp only [hrep] at h
            by_cases ht : pyTruthy r = true
            · rw [if_pos ht] at h
              cases r with
              | list xs =>
                simp only [] at h
                cases hl : ecbListF n xs with
                | error e => simp [hl] at h
                | ok part2 =>
                  simp only [hl] at h
                  obtain rfl : part1 ++ part2 = l := by simpa using h
                  intro s hs
                  rcases List.mem_append.mp hs with h1 | h1
                  · exact ecbBody_ok_mem hbp s h1
                  · exact ihL xs part2 hl s h1
              | str s2 =>
                obtain rfl : part1 = l := by simpa using h
                exact ecbBody_ok_mem hbp
              | dict gs =>
                obtain rfl : part1 = l := by simpa using h
                exact ecbBody_ok_mem hbp
              | int m => simp at h
              | bool b => simp at h
              | none => exact absurd ht (by simp [pyTruthy])
            · rw [if_neg ht] at h
              obtain rfl : part1 = l := by simpa using h
              exact ecbBody_ok_mem hbp
      | list xs =>
        unfold ecbF at h
        exact ihL xs l h
      | str s2 =>
        unfold ecbF at h
        obtain rfl : ([] : List String) = l := by simpa using h
        intro s hs
        simp at hs
      | int m =>
        unfold ecbF at h
        obtain rfl : ([] : List String) = l := by simpa using h
        intro s hs
        simp at hs
      | bool b =>
        unfold ecbF at h
        obtain rfl : ([] : List String) = l := by simpa using h
        intro s hs
        simp at hs
      | none =>
        unfold ecbF at h
        obtain rfl : ([] : List String) = l := by simpa using h
        intro s hs
        simp at hs
    · intro xs l h
      cases xs with
      | nil =>
        unfold ecbListF at h
        obtain rfl : ([] : List String) = l := by simpa using h
        intro s hs
        simp at hs
      | cons x t =>
        unfold ecbListF at h
        cases hx : ecbF n x with
        | error e => simp [hx] at h
        | ok a =>
          simp only [hx] at h
          cases ht2 : ecbListF n t with
          | error e => simp [ht2] at h
          | ok b =>
            simp only [ht2] at h
            obtain rfl : a ++ b = l := by simpa using h
            intro s hs
            rcases List.mem_append.mp hs with h1 | h1
            · exact ihF x a hx s h1
            · exact ihL t b ht2 s h1

theorem contentEntries_fst_mem {d : PyVal} {s : String}
    (h : s ∈ (contentEntries d).1) : pyStrip s = s ∧ s ≠ "" := by
  unfold contentEntries at h
  cases ht : titleStep d with
  | error e => simp [ht] at h
  | ok tp =>
    simp only [ht] at h
    cases hb : bodyStep d with
    | error e =>
      simp only [hb] at h
      exact titleStep_ok_mem ht s h
    | ok bp =>
      simp only [hb] at h
      exact titleStep_ok_mem ht s h

theorem contentEntries_body_mem {d : PyVal} {s : String}
    (h : s ∈ (contentEntries d).2.1) : pyStrip s = s ∧ s ≠ "" := by
  unfold contentEntries at h
  cases ht : titleStep d with
  | error e => simp [ht] at h
  | ok tp =>
    simp only [ht] at h
    cases hb : bodyStep d with
    | error e => simp [hb] at h
    | ok bp =>
      simp only [hb] at h
      exact bodyStep_ok_mem hb s h

theorem commentBodiesOf_mem {env : Env} {pid s : String}
    (h : s ∈ commentBodiesOf env pid) : pyStrip s = s ∧ s ≠ "" := by
  unfold commentBodiesOf at h
  cases hr : env.commentsResp pid with
  | raise => simp [hr] at h
  | ok blocks =>
    simp only [hr] at h
    cases hb : blocks.head? with
    | none => simp [hb] at h
    | some ctext =>
      simp only [hb] at h
      by_cases hs : strContains ctext "Error processing" = true
      · simp [hs] at h
      · simp only [hs, if_false, Bool.false_eq_true] at h
        cases hj : env.jsonLoads ctext with
        | none => simp [hj] at h
        | some d =>
          simp only [hj] at h
          cases he : extract_comment_bodies d with
          | error e => simp [he] at h
          | ok bodies =>
            simp only [he] at h
            have hmem := (List.mem_filter.mp h).1
            exact (ecb_mem_aux (pySize d)).1 d bodies he s hmem


theorem titlePartOf_mem {env : Env} {pid s : String}
    (h : s ∈ titlePartOf env pid) : pyStrip s = s ∧ s ≠ "" := by
  unfold titlePartOf at h
  cases hp : parsedContent env pid with
  | none => simp [hp] at h
  | some d =>
    simp only [hp] at h
    exact contentEntries_fst_mem h

theorem bodyPartOf_mem {env : Env} {pid s : String}
    (h : s ∈ bodyPartOf env pid) : pyStrip s = s ∧ s ≠ "" := by
  unfold bodyPartOf at h
  cases hp : parsedContent env pid with
  | none => simp [hp] at h
  | some d =>
    simp only [hp] at h
    exact contentEntries_body_mem h

theorem commentPartOf_mem {env : Env} {pid s : String}
    (h : s ∈ commentPartOf env pid) : pyStrip s = s ∧ s ≠ "" := by
  unfold commentPartOf at h
  by_cases hc : commentsAttempted env pid = true
  · rw [if_pos hc] at h
    exact commentBodiesOf_mem h
  · rw [if_neg hc] at h
    simp at h

/-- Claim C10: every string appended to the aggregate during a batch run —
title, post body, or comment body — is non-empty and equals its own trimmed
form. -/
theorem claim_C10 (env : Env) (ids : List String) (s : String)
    (h : s ∈ (runBatch env ids).1) : s ≠ "" ∧ pyStrip s = s := by
  rw [runBatch_flat] at h
  obtain ⟨pid, _, hmem⟩ := List.mem_flatMap.mp h
  rw [processPost_eq] at hmem
  simp only [List.nil_append] at hmem
  rcases List.mem_append.mp hmem with h1 | h1
  · rcases List.mem_append.mp h1 with h2 | h2
    · obtain ⟨ha, hb⟩ := titlePartOf_mem h2
      exact ⟨hb, ha⟩
    · obtain ⟨ha, hb⟩ := bodyPartOf_mem h2
      exact ⟨hb, ha⟩
  · obtain ⟨ha, hb⟩ := commentPartOf_mem h1
    exact ⟨hb, ha⟩

/-- The environment of the C10 witness: one post whose content parses to a
record with title `" Hi "`. -/
def envTitled : Env :=
  { listHot := fun _ _ => Fetch.raise
    contentResp := fun _ => Fetch.ok ["C"]
    commentsResp := fun _ => Fetch.ok ["x"]
    jsonLoads := fun t =>
      if t = "C" then some (.dict [("title", .str " Hi ")]) else Option.none }

/-- Claim C10 (witness): the single entry that run appends is `"Hi"`, indeed
non-empty and trimmed. -/
theorem claim_C10_witness : "Hi" ≠ "" ∧ pyStrip "Hi" = "Hi" :=
  claim_C10 envTitled ["p"] "Hi" (by decide)


/-! ## The flattener does not raise on well-shaped trees -/

theorem ecb_wf_aux : ∀ fuel : Nat,
    (∀ v, wfF fuel v = true → ∃ l, ecbF fuel v = .ok l) ∧
    (∀ xs, wfListF fuel xs = true → ∃ l, ecbListF fuel xs = .ok l) := by
  intro fuel
  induction fuel with
  | zero =>
    constructor
    · intro v h; simp [wfF] at h
    · intro xs h; simp [wfListF] at h
  | succ n ih =>
    obtain ⟨ihF, ihL⟩ := ih
    constructor
    · intro v h
      cases v with
      | dict fs =>
        unfold wfF at h
        simp only [Bool.and_eq_true] at h
        obtain ⟨h1, h2⟩ := h
        unfold ecbF
        simp only []
        have hbody : ∃ bl, ecbBody fs = .ok bl := by
          unfold ecbBody
          cases hb : List.lookup "body" fs with
          | none => exact ⟨[], rfl⟩
          | some bv =>
            cases bv with
            | str raw =>
              simp only []
              by_cases hg : pyStrip raw ≠ "" ∧ pyStrip raw ∉ ["[deleted]", "[removed]", ""]
              · rw [if_pos hg]; exact ⟨_, rfl⟩
              · rw [if_neg hg]; exact ⟨_, rfl⟩
            | int m => simp [hb] at h1
            | bool b => simp [hb] at h1
            | none => simp [hb] at h1
            | list xs => simp [hb] at h1
            | dict gs => simp [hb] at h1
        obtain ⟨bl, hbl⟩ := hbody
        rw [hbl]
        simp only []
        cases hrep : List.lookup "replies" fs with
        | none => exact ⟨bl, rfl⟩
        | some r =>
          rw [hrep] at h2
          simp only [] at h2
          simp only []
          by_cases ht : pyTruthy r = true
          · rw [if_pos ht] at h2
            rw [if_pos ht]
            cases r with
            | list xs =>
              obtain ⟨l2, hl2⟩ := ihL xs h2
              simp only []
              rw [hl2]
              exact ⟨bl ++ l2, rfl⟩
            | str s2 => exact ⟨bl, rfl⟩
            | dict gs => exact ⟨bl, rfl⟩
            | int m => simp at h2
            | bool b => simp at h2
            | none => simp [pyTruthy] at ht
          · rw [if_neg ht]
            exact ⟨bl, rfl⟩
      | list xs =>
        unfold wfF at h
        unfold ecbF
        exact ihL xs h
      | str s2 => exact ⟨[], rfl⟩
      | int m => exact ⟨[], rfl⟩
      | bool b => exact ⟨[], rfl⟩
      | none => exact ⟨[], rfl⟩
    · intro xs h
      cases xs with
      | nil => exact ⟨[], rfl⟩
      | cons x t =>
        unfold wfListF at h
        simp only [Bool.and_eq_true] at h
        obtain ⟨h1, h2⟩ := h
        obtain ⟨a, ha⟩ := ihF x h1
        obtain ⟨b, hb⟩ := ihL t h2
        unfold ecbListF
        rw [ha]
        simp only []
        rw [hb]
        exact ⟨a ++ b, rfl⟩

/-- Claim C3 (counterexample): the flattener is NOT total on arbitrary node
shapes — a dict whose `'body'` value is the number 42 makes `.strip()` raise
an `AttributeError`. -/
theorem claim_C3_counterexample :
    extract_comment_bodies (PyVal.dict [("body", PyVal.int 42)]) = .error () := rfl

/-- Claim C3 (amended): the flattener returns a list of strings without
raising on every well-shaped input — dict nodes whose `'body'` (when present)
is a string and whose `'replies'` (when present and truthy) is not a number
or boolean — and any leaf of unrecognised shape contributes nothing and does
not abort the traversal. -/
theorem claim_C3_amended :
    (∀ v, wfNode v = true → ∃ l, extract_comment_bodies v = .ok l) ∧
    (∀ n : Int, extract_comment_bodies (PyVal.int n) = .ok []) ∧
    (∀ b : Bool, extract_comment_bodies (PyVal.bool b) = .ok []) ∧
    (∀ s : String, extract_comment_bodies (PyVal.str s) = .ok []) ∧
    extract_comment_bodies PyVal.none = .ok [] := by
  refine ⟨?_, fun n => rfl, fun b => rfl, fun s => rfl, rfl⟩
  intro v h
  exact (ecb_wf_aux (pySize v)).1 v h

/-- Claim C3 (witness): a concrete well-shaped tree (tombstoned root body,
one real reply, one numeric junk sibling) flattens without raising. -/
theorem claim_C3_witness :
    wfNode (PyVal.dict [("body", PyVal.str "[deleted]"),
        ("replies", PyVal.list [PyVal.dict [("body", PyVal.str "hello")], PyVal.int 0])]) = true ∧
    ∃ l, extract_comment_bodies (PyVal.dict [("body", PyVal.str "[deleted]"),
        ("replies", PyVal.list [PyVal.dict [("body", PyVal.str "hello")], PyVal.int 0])]) = .ok l :=
  ⟨by decide, claim_C3_amended.1 _ (by decide)⟩

/-! ## Limits: CLI default, listing limit, hard cap -/

theorem processPost_one_contentFetch (env : Env) (pid : String) :
    ((processPost env [] pid).2).countP isContentFetchEv = 1 := by
  rw [processPost_eq]
  by_cases h : commentsAttempted env pid = true
  · simp [h, List.countP_cons, isContentFetchEv]
  · simp [h, List.countP_cons, isContentFetchEv]

theorem runBatch_contentFetch_count (env : Env) (ids : List String) :
    ((runBatch env ids).2).countP isContentFetchEv = ids.length := by
  rw [runBatch_flat]
  induction ids with
  | nil => simp
  | cons pid rest ih =>
    simp only [] at ih
    simp only [List.flatMap_cons, List.countP_append, List.length_cons]
    rw [processPost_one_contentFetch]
    omega

theorem pyTake_length_le {n : Int} (h : 0 ≤ n) (xs : List String) :
    (pyTake n xs).length ≤ n.toNat := by
  unfold pyTake
  rw [if_neg (by omega)]
  simp only [List.length_take]
  exact min_le_left _ _

/-- Claim C9: the CLI post-count limit defaults to 100 when the optional
argument is absent; whenever the listing call is performed — i.e. the
(ASCII) url's name extraction returns instead of raising; when it raises, no
tool call at all is issued — the limit passed to it is `min(post_limit,
100)`; and the same `post_limit` is the hard cap on the ids processed — the
run issues at most `post_limit` content fetches. -/
theorem claim_C9 :
    (∀ (toInt : String → Int) (argv : List String), argv.length ≤ 2 →
      mainPostLimit toInt argv = 100) ∧
    (∀ (env : Env) (url name : String) (plim : Int),
      asciiStr url = true → extract_subreddit_name url = .ok name →
      ((scrape_reddit_mcp env url plim).1).head?
        = some (Event.listingFetch name (min plim 100))) ∧
    (∀ (env : Env) (url : String) (plim : Int),
      extract_subreddit_name url = .error () →
      (scrape_reddit_mcp env url plim).1 = []) ∧
    (∀ (env : Env) (url : String) (plim : Int), 0 ≤ plim →
      ((scrape_reddit_mcp env url plim).1.countP isContentFetchEv) ≤ plim.toNat) := by
  refine ⟨?_, ?_, ?_, ?_⟩
  · intro toInt argv h
    unfold mainPostLimit
    rw [if_neg (by omega)]
  · intro env url name plim _hascii hok
    unfold scrape_reddit_mcp
    simp only [hok]
    cases hl : env.listHot name (min plim 100) with
    | raise => simp [hl]
    | ok blocks => simp [hl]
  · intro env url plim herr
    unfold scrape_reddit_mcp
    simp [herr]
  · intro env url plim h
    unfold scrape_reddit_mcp
    cases hname : extract_subreddit_name url with
    | error e => simp [hname]
    | ok name =>
      simp only [hname]
      cases hl : env.listHot name (min plim 100) with
      | raise => simp [hl, List.countP_cons, isContentFetchEv]
      | ok blocks =>
        simp [hl, List.countP_cons, isContentFetchEv]
        rw [runBatch_contentFetch_count]
        have := pyTake_length_le h (pyFromKeys (findIds ((blocks.head?).getD "")))
        unfold post_ids_of
        omega

/-- The environment of the C9 witness: a listing with two post links. -/
def envList : Env :=
  { listHot := fun _ _ => Fetch.ok ["/comments/aaa1/ /comments/bbb2/"]
    contentResp := fun _ => Fetch.raise
    commentsResp := fun _ => Fetch.raise
    jsonLoads := fun _ => Option.none }

/-- Claim C9 (witness): a run over a concrete listing with limit 5. -/
theorem claim_C9_witness :
    mainPostLimit (fun _ => 0) ["prog", "url"] = 100 ∧
    ((scrape_reddit_mcp envList "r/test" 5).1).head?
      = some (Event.listingFetch "test" (min 5 100)) ∧
    (scrape_reddit_mcp envList "r/test" 5).1.countP isContentFetchEv ≤ (5 : Int).toNat :=
  ⟨claim_C9.1 (fun _ => 0) ["prog", "url"] (by decide),
   claim_C9.2.1 envList "r/test" "test" 5 (by decide) rfl,
   claim_C9.2.2.2 envList "r/test" 5 (by decide)⟩

end Scraper
